import Mathlib

/-!
# Verification of the `age` CLI parsing code and the spec-modelled core

This development embeds `cmd/age/parse.go` (the recipient/identity file
parsing of the `age` command-line tool) shallowly in Lean, together with a
model of the cryptographic core written from the specification (the core
library itself — encrypt/decrypt orchestrator, STREAM transform, stanza
wrap/unwrap — is not part of the sources given, only the CLI is).

Conventions of the embedding:
* Go strings are byte sequences; where the code inspects strings
  structurally we model them as `List Char` (the inputs are lines of
  text), and where byte lengths or byte comparisons matter we go through
  an explicit UTF-8 encoder `strBytesL`.
* Go errors are modelled by their messages (`Error := String`);
  `fmt.Errorf` becomes string concatenation, `%q` becomes `goQuote`.
* `os.File`/`bufio.Scanner` I/O is modelled by the data the scanner
  yields: a list of lines plus an optional read error reported after
  them, or an open error.
* The process-wide `stdinInUse` flag becomes an explicit `ProcState`
  threaded through the two parsing functions.
* External functions from other modules of the repository or from
  third-party libraries (`age.ParseX25519Recipient`,
  `agessh.ParseRecipient`, `agessh.ParseIdentity`, `age.ParseIdentities`,
  `ssh.ParseAuthorizedKey`, the armor decoder) are parameters of the
  model, so every theorem below holds for all of their behaviours unless
  a concrete instantiation is needed.
-/

/-- Go errors, modelled by their message strings. -/
abbrev Error := String

deriving instance DecidableEq for Except

/-- The characters of a string literal. -/
def strChars (s : String) : List Char := s.data

/-- UTF-8 encoding of one character (Go strings are UTF-8 byte slices). -/
def utf8Bytes (c : Char) : List Nat :=
  let n := c.toNat
  if n < 0x80 then [n]
  else if n < 0x800 then [0xC0 + n / 64, 0x80 + n % 64]
  else if n < 0x10000 then [0xE0 + n / 4096, 0x80 + (n / 64) % 64, 0x80 + n % 64]
  else [0xF0 + n / 0x40000, 0x80 + (n / 4096) % 64, 0x80 + (n / 64) % 64, 0x80 + n % 64]

/-- The UTF-8 bytes of a character list; `(strBytesL l).length` is Go's
`len(string(l))`. -/
def strBytesL (l : List Char) : List Nat := (l.map utf8Bytes).flatten

/-- The UTF-8 bytes of a string literal. -/
def strBytes (s : String) : List Nat := strBytesL s.data

/-- Go's `%q` verb applied to a file name (no escaping needed for the
names appearing in the claims; the quotes are what matters). -/
def goQuote (s : String) : String := "\"" ++ s ++ "\""

/-- `strings.Split` with a one-element separator: fields separated by
single occurrences of `sep`, empty fields preserved, `[[]]` for the
empty list. -/
def splitOnSep {α : Type} [DecidableEq α] (sep : α) : List α → List (List α)
  | [] => [[]]
  | c :: rest =>
    match splitOnSep sep rest with
    | [] => [[]]
    | g :: gs => if c = sep then [] :: g :: gs else (c :: g) :: gs

/-- Value of one base64 character in the standard alphabet
(`encoding/base64.StdEncoding`). -/
def b64CharVal (c : Char) : Option Nat :=
  if 'A' ≤ c ∧ c ≤ 'Z' then some (c.toNat - 65)
  else if 'a' ≤ c ∧ c ≤ 'z' then some (c.toNat - 97 + 26)
  else if '0' ≤ c ∧ c ≤ '9' then some (c.toNat - 48 + 52)
  else if c = '+' then some 62
  else if c = '/' then some 63
  else none

/-- Standard base64 decoding by 4-character quanta, with `=` padding
allowed only in the final quantum, as in Go's
`base64.StdEncoding.DecodeString`. -/
def b64DecodeGroups : List Char → Option (List Nat)
  | [] => some []
  | c1 :: c2 :: c3 :: c4 :: rest =>
    match b64CharVal c1, b64CharVal c2 with
    | some v1, some v2 =>
      if c3 = '=' then
        if c4 = '=' ∧ rest = [] then some [v1 * 4 + v2 / 16] else none
      else
        match b64CharVal c3 with
        | some v3 =>
          if c4 = '=' then
            if rest = [] then some [v1 * 4 + v2 / 16, v2 % 16 * 16 + v3 / 4] else none
          else
            match b64CharVal c4 with
            | some v4 =>
              (b64DecodeGroups rest).map
                (fun tl =>
                  (v1 * 4 + v2 / 16) :: (v2 % 16 * 16 + v3 / 4) :: (v3 % 4 * 64 + v4) :: tl)
            | none => none
        | none => none
    | _, _ => none
  | _ => none

/-- `base64.StdEncoding.DecodeString`: newline characters are skipped
anywhere, everything else is decoded in 4-character quanta. -/
def b64Decode (s : List Char) : Option (List Nat) :=
  b64DecodeGroups (s.filter (fun c => c ≠ '\n' ∧ c ≠ '\r'))

/-- `age.Recipient` values are opaque to the CLI; we model them by a
token. -/
structure Recipient where
  tok : Nat
deriving DecidableEq, Repr

/-- The external recipient parsers called by `parseRecipient`:
`age.ParseX25519Recipient` and `agessh.ParseRecipient` live in other
packages of the repository and are parameters of the model. -/
structure ExternalParsers where
  parseX25519Recipient : List Char → Except Error Recipient
  parseSSHRecipient : List Char → Except Error Recipient

/-- The message of `gitHubRecipientError.Error()`; the `username` field
of the Go struct is never used by `Error()`. -/
def gitHubRecipientErrorMsg : Error :=
  "\"github:\" recipients were removed from the design"

/-- `parseRecipient` from `cmd/age/parse.go`: dispatch on the argument's
prefix. -/
def parseRecipient (ext : ExternalParsers) (arg : List Char) : Except Error Recipient :=
  if (strChars "age1").isPrefixOf arg then ext.parseX25519Recipient arg
  else if (strChars "ssh-").isPrefixOf arg then ext.parseSSHRecipient arg
  else if (strChars "github:").isPrefixOf arg then
    Except.error gitHubRecipientErrorMsg
  else Except.error ("unknown recipient type: " ++ goQuote (String.mk arg))

/-- `sshKeyType` from `cmd/age/parse.go`: split on single spaces,
base64-decode the second field, read a `uint32` big-endian length and
that many bytes (`cryptobyte.String.ReadUint32`/`ReadBytes`), and
compare with the first field. -/
def sshKeyType (s : List Char) : Option (List Char) :=
  let fields := splitOnSep ' ' s
  if fields.length < 2 then none
  else
    match b64Decode (fields.getD 1 []) with
    | none => none
    | some key =>
      match key with
      | b0 :: b1 :: b2 :: b3 :: rest =>
        let typeLen := ((b0 * 256 + b1) * 256 + b2) * 256 + b3
        if typeLen ≤ rest.length then
          if strBytesL (fields.getD 0 []) = rest.take typeLen then
            some (fields.getD 0 [])
          else none
        else none
      | _ => none

/-- What `os.Open` + `bufio.Scanner` yield for a recipients file: either
the open fails, or the scanner yields a list of lines followed by an
optional read error (`scanner.Err()`). -/
inductive RecFile where
  | openErr (e : Error)
  | content (lines : List (List Char)) (scanErr : Option Error)

/-- The lines the scanner yields from standard input, plus an optional
read error. -/
structure RecStdin where
  lines : List (List Char)
  scanErr : Option Error

/-- The process-wide state: `var stdinInUse bool` from
`cmd/age/parse.go`. -/
structure ProcState where
  stdinInUse : Bool
deriving DecidableEq, Repr

/-- The error both functions return when standard input was already
claimed. -/
def stdinErrMsg : Error := "standard input is used for multiple purposes"

/-- The warning `warningf` prints when an unsupported but well-formed SSH
key is skipped. -/
def sshWarnMsg (name : String) (t : List Char) (n : Nat) : String :=
  "recipients file " ++ goQuote name ++ ": ignoring unsupported SSH key of type "
    ++ goQuote (String.mk t) ++ " at line " ++ toString n

/-- The error for a malformed recipient line; built only from the file
name and the line number (the code comment says the line content is
hidden so confidential file contents do not leak). -/
def malformedMsg (name : String) (n : Nat) : Error :=
  goQuote name ++ ": malformed recipient at line " ++ toString n

/-- The error for an over-long line. -/
def lineTooLongMsg (name : String) (n : Nat) : Error :=
  goQuote name ++ ": line " ++ toString n ++ " is too long"

/-- The scanner loop of `parseRecipientsFile`: `n` counts the lines
already consumed, `recs` the recipients parsed so far, `warns` the
warnings printed so far. Returns the warnings plus either the final
recipient list or the error that aborted the loop. -/
def recipientsLoop (ext : ExternalParsers) (name : String) :
    List (List Char) → Nat → List Recipient → List String →
    List String × Except Error (List Recipient)
  | [], _, recs, warns => (warns, Except.ok recs)
  | line :: rest, n, recs, warns =>
    if (strChars "#").isPrefixOf line ∨ line = [] then
      recipientsLoop ext name rest (n + 1) recs warns
    else if 8192 < (strBytesL line).length then
      (warns, Except.error (lineTooLongMsg name (n + 1)))
    else
      match parseRecipient ext line with
      | Except.ok r => recipientsLoop ext name rest (n + 1) (recs ++ [r]) warns
      | Except.error _ =>
        match sshKeyType line with
        | some t =>
          recipientsLoop ext name rest (n + 1) recs (warns ++ [sshWarnMsg name t (n + 1)])
        | none => (warns, Except.error (malformedMsg name (n + 1)))

/-- The body of `parseRecipientsFile` once a line source is in hand: run
the scanner loop, then check `scanner.Err()`, then the
`len(recs) == 0` case, in the order of the Go code. Returns the
warnings printed and the returned value. -/
def recipientsScan (ext : ExternalParsers) (name : String)
    (lines : List (List Char)) (scanErr : Option Error) :
    List String × Except Error (List Recipient) :=
  match recipientsLoop ext name lines 0 [] [] with
  | (warns, Except.error e) => (warns, Except.error e)
  | (warns, Except.ok recs) =>
    match scanErr with
    | some e =>
      (warns, Except.error (goQuote name ++ ": failed to read recipients file: " ++ e))
    | none =>
      if recs.length = 0 then
        (warns, Except.error (goQuote name ++ ": no recipients found"))
      else (warns, Except.ok recs)

/-- `parseRecipientsFile` from `cmd/age/parse.go`. The result is the new
process state, the warnings printed, and the returned value. -/
def parseRecipientsFile (ext : ExternalParsers) (fs : String → RecFile)
    (stdin : RecStdin) (st : ProcState) (name : String) :
    ProcState × List String × Except Error (List Recipient) :=
  if name = "-" then
    if st.stdinInUse then (st, [], Except.error stdinErrMsg)
    else (⟨true⟩, recipientsScan ext name stdin.lines stdin.scanErr)
  else
    match fs name with
    | RecFile.openErr e => (st, [], Except.error ("failed to open recipient file: " ++ e))
    | RecFile.content lines scanErr => (st, recipientsScan ext name lines scanErr)

/-- A pair of external parsers that reject everything; used to
instantiate the model at concrete inputs. -/
def extDeny : ExternalParsers :=
  ⟨fun _ => Except.error "unsupported", fun _ => Except.error "unsupported"⟩

/-- C9: for every argument starting with `github:`, `parseRecipient`
returns the fixed error message of `gitHubRecipientError`, independent of
the username that follows the prefix (and of the external parsers). -/
theorem parseRecipient_github (ext : ExternalParsers) (arg : List Char)
    (h : (strChars "github:").isPrefixOf arg) :
    parseRecipient ext arg = Except.error gitHubRecipientErrorMsg := by
  rw [List.isPrefixOf_iff_prefix] at h
  obtain ⟨t, rfl⟩ := h
  simp [parseRecipient, List.isPrefixOf, strChars]

/-- Witness for C9 at the concrete argument `github:alice`. -/
theorem parseRecipient_github_witness :
    ((strChars "github:").isPrefixOf (strChars "github:alice") = true) ∧
      parseRecipient extDeny (strChars "github:alice")
        = Except.error gitHubRecipientErrorMsg :=
  ⟨by decide, parseRecipient_github extDeny (strChars "github:alice") (by decide)⟩

/-! ## The scanner loop: skipping, warnings, and content-independent errors -/

/-- A line the scanner loop passes over without returning: a comment or
empty line, or a line within the length limit that either parses as a
recipient or is a recognized SSH key (skipped with a warning). -/
def lineContinues (ext : ExternalParsers) (l : List Char) : Bool :=
  ((strChars "#").isPrefixOf l || l.isEmpty) ||
    (decide ((strBytesL l).length ≤ 8192) &&
      ((parseRecipient ext l).isOk || (sshKeyType l).isSome))

/-- A line on which the loop aborts with the malformed-recipient error:
neither comment nor empty, within the length limit, rejected by
`parseRecipient`, and not recognized by `sshKeyType`. -/
def lineMalformed (ext : ExternalParsers) (l : List Char) : Bool :=
  !((strChars "#").isPrefixOf l) && !l.isEmpty &&
    decide ((strBytesL l).length ≤ 8192) &&
    !(parseRecipient ext l).isOk && (sshKeyType l).isNone

/-- One skipped-with-warning step of the loop (claim C5's content). -/
theorem recipientsLoop_ssh_skip (ext : ExternalParsers) (name : String)
    (line : List Char) (t : List Char) (rest : List (List Char)) (n : Nat)
    (recs : List Recipient) (warns : List String)
    (h1 : ¬((strChars "#").isPrefixOf line ∨ line = []))
    (h2 : (strBytesL line).length ≤ 8192)
    (h3 : (parseRecipient ext line).isOk = false)
    (h4 : sshKeyType line = some t) :
    recipientsLoop ext name (line :: rest) n recs warns
      = recipientsLoop ext name rest (n + 1) recs (warns ++ [sshWarnMsg name t (n + 1)]) := by
  cases hres : parseRecipient ext line with
  | ok r => rw [hres] at h3; simp [Except.isOk, Except.toBool] at h3
  | error e =>
    simp only [recipientsLoop, if_neg h1, if_neg (by omega : ¬8192 < (strBytesL line).length),
      hres, h4]

/-- A loop step on a malformed line returns the malformed-recipient
error, whatever the accumulated recipients and warnings are. -/
theorem recipientsLoop_malformed (ext : ExternalParsers) (name : String)
    (line : List Char) (rest : List (List Char)) (n : Nat)
    (recs : List Recipient) (warns : List String)
    (h : lineMalformed ext line = true) :
    recipientsLoop ext name (line :: rest) n recs warns
      = (warns, Except.error (malformedMsg name (n + 1))) := by
  simp only [lineMalformed, Bool.and_eq_true, Bool.not_eq_true', decide_eq_true_eq,
    Option.isNone_iff_eq_none] at h
  obtain ⟨⟨⟨⟨hpre, hempty⟩, hlen⟩, hok⟩, hssh⟩ := h
  cases hres : parseRecipient ext line with
  | ok r => rw [hres] at hok; simp [Except.isOk, Except.toBool] at hok
  | error e =>
    have h1 : ¬((strChars "#").isPrefixOf line ∨ line = []) := by
      rintro (hc | hc)
      · rw [hpre] at hc; exact Bool.false_ne_true hc
      · rw [hc] at hempty; simp [List.isEmpty] at hempty
    simp only [recipientsLoop, if_neg h1, if_neg (by omega : ¬8192 < (strBytesL line).length),
      hres, hssh]

/-- Lines that continue are passed over: the loop on `pre ++ rest` where
every line of `pre` continues agrees (for some accumulated recipients
and warnings) with the loop on `rest` started `pre.length` lines
later. -/
theorem recipientsLoop_append_continues (ext : ExternalParsers) (name : String)
    (pre : List (List Char)) :
    ∀ (rest : List (List Char)) (n : Nat) (recs : List Recipient) (warns : List String),
      (∀ l ∈ pre, lineContinues ext l = true) →
      ∃ recs' warns',
        recipientsLoop ext name (pre ++ rest) n recs warns
          = recipientsLoop ext name rest (n + pre.length) recs' warns' := by
  induction pre with
  | nil => intro rest n recs warns _; exact ⟨recs, warns, by simp⟩
  | cons l pre ih =>
    intro rest n recs warns hall
    have hl := hall l (List.mem_cons_self l pre)
    have hrest : ∀ l' ∈ pre, lineContinues ext l' = true :=
      fun l' hl' => hall l' (List.mem_cons_of_mem l hl')
    by_cases h1 : (strChars "#").isPrefixOf l ∨ l = []
    · have step : recipientsLoop ext name ((l :: pre) ++ rest) n recs warns
          = recipientsLoop ext name (pre ++ rest) (n + 1) recs warns := by
        simp only [List.cons_append, recipientsLoop, if_pos h1, List.append_eq]
      obtain ⟨recs', warns', h⟩ := ih rest (n + 1) recs warns hrest
      refine ⟨recs', warns', ?_⟩
      rw [step, h]
      congr 1
      simp only [List.length_cons]
      omega
    · simp only [lineContinues, Bool.or_eq_true, Bool.and_eq_true, decide_eq_true_eq] at hl
      rcases hl with (hs | ⟨hlen, hok⟩)
      · exfalso
        rcases hs with hs | hs
        · exact h1 (Or.inl hs)
        · exact h1 (Or.inr (List.isEmpty_iff.mp hs))
      · have h2 : ¬8192 < (strBytesL l).length := by omega
        cases hres : parseRecipient ext l with
        | ok r =>
          have step : recipientsLoop ext name ((l :: pre) ++ rest) n recs warns
              = recipientsLoop ext name (pre ++ rest) (n + 1) (recs ++ [r]) warns := by
            simp only [List.cons_append, recipientsLoop, if_neg h1, if_neg h2, hres, List.append_eq]
          obtain ⟨recs', warns', h⟩ := ih rest (n + 1) (recs ++ [r]) warns hrest
          refine ⟨recs', warns', ?_⟩
          rw [step, h]
          congr 1
          simp only [List.length_cons]
          omega
        | error e0 =>
          have hssh : (sshKeyType l).isSome = true := by
            rcases hok with hok | hok
            · rw [hres] at hok; simp [Except.isOk, Except.toBool] at hok
            · exact hok
          obtain ⟨t, ht⟩ := Option.isSome_iff_exists.mp hssh
          have step : recipientsLoop ext name ((l :: pre) ++ rest) n recs warns
              = recipientsLoop ext name (pre ++ rest) (n + 1) recs
                  (warns ++ [sshWarnMsg name t (n + 1)]) := by
            simp only [List.cons_append, recipientsLoop, if_neg h1, if_neg h2, hres, ht, List.append_eq]
          obtain ⟨recs', warns', h⟩ :=
            ih rest (n + 1) recs (warns ++ [sshWarnMsg name t (n + 1)]) hrest
          refine ⟨recs', warns', ?_⟩
          rw [step, h]
          congr 1
          simp only [List.length_cons]
          omega

/-- Witness for C5: the line `ssh-dss AAAAB3NzaC1kc3M=` is rejected by
`parseRecipient` (under parsers that reject it) but recognized by
`sshKeyType` as an `ssh-dss` key, so the loop skips it with a warning. -/
theorem recipientsLoop_ssh_skip_witness :
    (¬((strChars "#").isPrefixOf (strChars "ssh-dss AAAAB3NzaC1kc3M=")
        ∨ strChars "ssh-dss AAAAB3NzaC1kc3M=" = [])) ∧
      ((strBytesL (strChars "ssh-dss AAAAB3NzaC1kc3M=")).length ≤ 8192) ∧
      ((parseRecipient extDeny (strChars "ssh-dss AAAAB3NzaC1kc3M=")).isOk = false) ∧
      (sshKeyType (strChars "ssh-dss AAAAB3NzaC1kc3M=") = some (strChars "ssh-dss")) ∧
      recipientsLoop extDeny "r.txt" [strChars "ssh-dss AAAAB3NzaC1kc3M="] 0 [] []
        = recipientsLoop extDeny "r.txt" [] 1 []
            ([] ++ [sshWarnMsg "r.txt" (strChars "ssh-dss") 1]) :=
  ⟨by decide, by decide, by decide, by decide,
    recipientsLoop_ssh_skip extDeny "r.txt" (strChars "ssh-dss AAAAB3NzaC1kc3M=")
      (strChars "ssh-dss") [] 0 [] [] (by decide) (by decide) (by decide) (by decide)⟩

/-- C6: two recipients files with the same name whose line `n` is
malformed (and whose earlier lines do not abort the scan) produce the
identical error, built only from the file name and the line number —
the content of the malformed line is not echoed. -/
theorem parseRecipientsFile_malformed_content_independent
    (ext : ExternalParsers) (fs1 fs2 : String → RecFile) (stdin1 stdin2 : RecStdin)
    (st1 st2 : ProcState) (name : String)
    (pre1 pre2 : List (List Char)) (m1 m2 : List Char)
    (rest1 rest2 : List (List Char)) (se1 se2 : Option Error)
    (hname : name ≠ "-")
    (hf1 : fs1 name = RecFile.content (pre1 ++ m1 :: rest1) se1)
    (hf2 : fs2 name = RecFile.content (pre2 ++ m2 :: rest2) se2)
    (hlen : pre1.length = pre2.length)
    (hp1 : ∀ l ∈ pre1, lineContinues ext l = true)
    (hp2 : ∀ l ∈ pre2, lineContinues ext l = true)
    (hm1 : lineMalformed ext m1 = true)
    (hm2 : lineMalformed ext m2 = true) :
    (parseRecipientsFile ext fs1 stdin1 st1 name).2.2
        = (parseRecipientsFile ext fs2 stdin2 st2 name).2.2
      ∧ (parseRecipientsFile ext fs1 stdin1 st1 name).2.2
        = Except.error (malformedMsg name (pre1.length + 1)) := by
  have key : ∀ (fs : String → RecFile) (stdin : RecStdin) (st : ProcState)
      (pre : List (List Char)) (m : List Char) (rest : List (List Char)) (se : Option Error),
      fs name = RecFile.content (pre ++ m :: rest) se →
      (∀ l ∈ pre, lineContinues ext l = true) →
      lineMalformed ext m = true →
      (parseRecipientsFile ext fs stdin st name).2.2
        = Except.error (malformedMsg name (pre.length + 1)) := by
    intro fs stdin st pre m rest se hf hp hm
    obtain ⟨recs', warns', hloop⟩ :=
      recipientsLoop_append_continues ext name pre (m :: rest) 0 [] [] hp
    have hml := recipientsLoop_malformed ext name m rest (0 + pre.length) recs' warns' hm
    simp only [parseRecipientsFile, if_neg hname, hf, recipientsScan, hloop, hml]
    simp
  refine ⟨?_, key fs1 stdin1 st1 pre1 m1 rest1 se1 hf1 hp1 hm1⟩
  rw [key fs1 stdin1 st1 pre1 m1 rest1 se1 hf1 hp1 hm1,
    key fs2 stdin2 st2 pre2 m2 rest2 se2 hf2 hp2 hm2, hlen]

/-- Witness for C6: two one-line files with different malformed content
yield the same error naming only the file and the line. -/
theorem parseRecipientsFile_malformed_content_independent_witness :
    ((fun _ => RecFile.content ([] ++ strChars "@garbage-one" :: []) none :
        String → RecFile) "r.txt"
      = RecFile.content ([] ++ strChars "@garbage-one" :: []) none) ∧
    (lineMalformed extDeny (strChars "@garbage-one") = true) ∧
    (lineMalformed extDeny (strChars "!! totally different 123") = true) ∧
    ((parseRecipientsFile extDeny
        (fun _ => RecFile.content ([] ++ strChars "@garbage-one" :: []) none)
        ⟨[], none⟩ ⟨false⟩ "r.txt").2.2
      = (parseRecipientsFile extDeny
          (fun _ => RecFile.content ([] ++ strChars "!! totally different 123" :: []) none)
          ⟨[], none⟩ ⟨false⟩ "r.txt").2.2) ∧
    ((parseRecipientsFile extDeny
        (fun _ => RecFile.content ([] ++ strChars "@garbage-one" :: []) none)
        ⟨[], none⟩ ⟨false⟩ "r.txt").2.2
      = Except.error (malformedMsg "r.txt" (List.length ([] : List (List Char)) + 1))) := by
  have h := parseRecipientsFile_malformed_content_independent extDeny
    (fun _ => RecFile.content ([] ++ strChars "@garbage-one" :: []) none)
    (fun _ => RecFile.content ([] ++ strChars "!! totally different 123" :: []) none)
    ⟨[], none⟩ ⟨[], none⟩ ⟨false⟩ ⟨false⟩ "r.txt"
    [] [] (strChars "@garbage-one") (strChars "!! totally different 123")
    [] [] none none (by decide) rfl rfl rfl
    (by intro l hl; cases hl) (by intro l hl; cases hl) (by decide) (by decide)
  exact ⟨rfl, by decide, by decide, h.1, h.2⟩

/-- The loop on a file of only comments and empty lines returns the
accumulated state unchanged. -/
theorem recipientsLoop_all_skip (ext : ExternalParsers) (name : String)
    (lines : List (List Char)) :
    ∀ (n : Nat) (recs : List Recipient) (warns : List String),
      (∀ l ∈ lines, (strChars "#").isPrefixOf l ∨ l = []) →
      recipientsLoop ext name lines n recs warns = (warns, Except.ok recs) := by
  induction lines with
  | nil => intro n recs warns _; rfl
  | cons l rest ih =>
    intro n recs warns hall
    have h1 := hall l (List.mem_cons_self l rest)
    have hrest : ∀ l' ∈ rest, (strChars "#").isPrefixOf l' ∨ l' = [] :=
      fun l' hl' => hall l' (List.mem_cons_of_mem l hl')
    simp only [recipientsLoop, if_pos h1]
    exact ih (n + 1) recs warns hrest

/-- `recipientsScan` only returns `ok` with a non-empty recipient
list (the `len(recs) == 0` check). -/
theorem recipientsScan_ok_nonempty (ext : ExternalParsers) (name : String)
    (lines : List (List Char)) (scanErr : Option Error)
    (warns : List String) (recs : List Recipient)
    (h : recipientsScan ext name lines scanErr = (warns, Except.ok recs)) :
    recs ≠ [] := by
  unfold recipientsScan at h
  split at h
  · simp at h
  · rename_i warns0 recs0 heq
    cases scanErr with
    | some e => simp at h
    | none =>
      by_cases hz : recs0.length = 0
      · rw [if_pos hz] at h; simp at h
      · rw [if_neg hz] at h
        intro hnil
        apply hz
        have h3 : Except.ok (ε := Error) recs0 = Except.ok recs := congrArg Prod.snd h
        injection h3 with h3
        rw [h3, hnil]
        rfl

/-- C8: a recipients file of only comments and empty lines yields the
`no recipients found` error, and a successful return always carries at
least one recipient. -/
theorem parseRecipientsFile_no_recipients
    (ext : ExternalParsers) (fs : String → RecFile) (stdin : RecStdin)
    (st : ProcState) (name : String) :
    (∀ (lines : List (List Char)),
      name ≠ "-" → fs name = RecFile.content lines none →
      (∀ l ∈ lines, (strChars "#").isPrefixOf l ∨ l = []) →
      (parseRecipientsFile ext fs stdin st name).2.2
        = Except.error (goQuote name ++ ": no recipients found"))
    ∧ (∀ (st' : ProcState) (warns : List String) (recs : List Recipient),
        parseRecipientsFile ext fs stdin st name = (st', warns, Except.ok recs) →
        recs ≠ []) := by
  constructor
  · intro lines hname hf hall
    have hloop := recipientsLoop_all_skip ext name lines 0 [] [] hall
    simp only [parseRecipientsFile, if_neg hname, hf, recipientsScan, hloop]
    rfl
  · intro st' warns recs h
    by_cases hname : name = "-"
    · subst hname
      unfold parseRecipientsFile at h
      rw [if_pos rfl] at h
      by_cases hin : st.stdinInUse
      · rw [if_pos hin] at h; simp at h
      · rw [if_neg hin] at h
        simp only [Prod.mk.injEq] at h
        exact recipientsScan_ok_nonempty ext "-" stdin.lines stdin.scanErr
          warns recs (by rw [h.2])
    · unfold parseRecipientsFile at h
      rw [if_neg hname] at h
      cases hf : fs name with
      | openErr e => rw [hf] at h; simp at h
      | content lines scanErr =>
        rw [hf] at h
        simp only [Prod.mk.injEq] at h
        exact recipientsScan_ok_nonempty ext name lines scanErr
          warns recs (by rw [h.2])

/-- Witness for C8: a file holding one comment and one empty line. -/
theorem parseRecipientsFile_no_recipients_witness :
    ((fun _ => RecFile.content [strChars "# a comment", []] none : String → RecFile) "r.txt"
      = RecFile.content [strChars "# a comment", []] none) ∧
    (parseRecipientsFile extDeny (fun _ => RecFile.content [strChars "# a comment", []] none)
        ⟨[], none⟩ ⟨false⟩ "r.txt").2.2
      = Except.error (goQuote "r.txt" ++ ": no recipients found") :=
  ⟨rfl,
    (parseRecipientsFile_no_recipients extDeny
        (fun _ => RecFile.content [strChars "# a comment", []] none)
        ⟨[], none⟩ ⟨false⟩ "r.txt").1
      [strChars "# a comment", []] (by decide) rfl (by decide)⟩

/-- A file system where opening any file fails. -/
def fsOpenErr : String → RecFile := fun _ => RecFile.openErr "boom"

/-- Counterexample for C7: when opening the recipients file fails with
error `boom`, `parseRecipientsFile` does not return `boom` itself but a
new error with a context message around it. -/
theorem parseRecipientsFile_io_error_wrapped_counterexample :
    (parseRecipientsFile extDeny fsOpenErr ⟨[], none⟩ ⟨false⟩ "r.txt").2.2
        = Except.error ("failed to open recipient file: " ++ "boom")
      ∧ (parseRecipientsFile extDeny fsOpenErr ⟨[], none⟩ ⟨false⟩ "r.txt").2.2
        ≠ Except.error "boom" := by
  constructor
  · rfl
  · decide

/-- C7 amended: I/O errors are not returned unchanged; an open failure
`e` is returned as `failed to open recipient file: e` and a read failure
`e` as `"name": failed to read recipients file: e`, each a new error
embedding the underlying error's message. -/
theorem parseRecipientsFile_io_error_wrapped
    (ext : ExternalParsers) (fs : String → RecFile) (stdin : RecStdin)
    (st : ProcState) (name : String) (e : Error) (hname : name ≠ "-") :
    (fs name = RecFile.openErr e →
      (parseRecipientsFile ext fs stdin st name).2.2
        = Except.error ("failed to open recipient file: " ++ e))
    ∧ (∀ (lines : List (List Char)) (warns : List String) (recs : List Recipient),
        fs name = RecFile.content lines (some e) →
        recipientsLoop ext name lines 0 [] [] = (warns, Except.ok recs) →
        (parseRecipientsFile ext fs stdin st name).2.2
          = Except.error (goQuote name ++ ": failed to read recipients file: " ++ e)) := by
  constructor
  · intro hf
    simp only [parseRecipientsFile, if_neg hname, hf]
  · intro lines warns recs hf hloop
    simp only [parseRecipientsFile, if_neg hname, hf, recipientsScan, hloop]

/-- Witness for the amended C7 at a concrete open error and a concrete
read error. -/
theorem parseRecipientsFile_io_error_wrapped_witness :
    (fsOpenErr "r.txt" = RecFile.openErr "boom") ∧
    (parseRecipientsFile extDeny fsOpenErr ⟨[], none⟩ ⟨false⟩ "r.txt").2.2
      = Except.error ("failed to open recipient file: " ++ "boom") ∧
    (parseRecipientsFile extDeny (fun _ => RecFile.content [] (some "late"))
        ⟨[], none⟩ ⟨false⟩ "r.txt").2.2
      = Except.error (goQuote "r.txt" ++ ": failed to read recipients file: " ++ "late") :=
  ⟨rfl,
    (parseRecipientsFile_io_error_wrapped extDeny fsOpenErr ⟨[], none⟩ ⟨false⟩
        "r.txt" "boom" (by decide)).1 rfl,
    (parseRecipientsFile_io_error_wrapped extDeny
        (fun _ => RecFile.content [] (some "late")) ⟨[], none⟩ ⟨false⟩
        "r.txt" "late" (by decide)).2 [] [] [] rfl rfl⟩

/-! ## `parseIdentitiesFile` and the process-wide stdin flag -/

/-- What `os.Open` yields for an identity file: an open error or the
file's bytes. -/
inductive IdFile where
  | openErr (e : Error)
  | bytes (content : List Nat)

/-- `age.Identity` values produced by `parseIdentitiesFile`; the
identities built from external parsers are modelled by tokens, and
`EncryptedIdentity` by the data its closures capture. -/
inductive Identity where
  | encryptedIdentity (contents : List Nat) (fileName : String)
  | sshIdentity (tok : Nat)
  | encryptedSSHIdentity (tok : Nat)
  | ageIdentity (tok : Nat)
deriving DecidableEq, Repr

/-- The result of `agessh.ParseIdentity`: a parsed identity, a
`*ssh.PassphraseMissingError` (optionally carrying the public key), or
another error. -/
inductive SSHParseOutcome where
  | ok (tok : Nat)
  | passphraseMissing (pubKey : Option Nat)
  | err (e : Error)

/-- The external functions `parseIdentitiesFile` and its helpers call:
the armor decoder (modelled as the decoded byte stream plus an optional
error reported after it), `age.ParseIdentities`, `agessh.ParseIdentity`,
`agessh.NewEncryptedSSHIdentity` and `ssh.ParseAuthorizedKey`. They live
outside `cmd/age` and are parameters of the model. -/
structure IdExternals where
  armorStream : List Nat → List Nat × Option Error
  ageParseIdentities : List Nat → Except Error (List Identity)
  agesshParseIdentity : List Nat → SSHParseOutcome
  newEncryptedSSHIdentity : Nat → List Nat → Except Error Identity
  sshParseAuthorizedKey : List Nat → Except Error Nat

/-- `readPubFile` from `cmd/age/parse.go`. -/
def readPubFile (ext : IdExternals) (fs : String → IdFile) (name : String) :
    Except Error Nat :=
  if name = "-" then
    Except.error ("failed to obtain public key for \"-\" SSH key\n\nUse a file for which the corresponding \".pub\" file exists, or convert the private key to a modern format with \"ssh-keygen -p -m RFC4716\"")
  else
    match fs (name ++ ".pub") with
    | IdFile.openErr e =>
      Except.error ("failed to obtain public key for " ++ goQuote name ++ " SSH key: " ++ e
        ++ "\n\nEnsure " ++ goQuote (name ++ ".pub") ++ " exists, or convert the private key "
        ++ goQuote name ++ " to a modern format with \"ssh-keygen -p -m RFC4716\"")
    | IdFile.bytes contents =>
      match ext.sshParseAuthorizedKey contents with
      | Except.error e => Except.error ("failed to parse " ++ goQuote (name ++ ".pub") ++ ": " ++ e)
      | Except.ok pk => Except.ok pk

/-- `parseSSHIdentity` from `cmd/age/parse.go`. -/
def parseSSHIdentity (ext : IdExternals) (fs : String → IdFile) (name : String)
    (pemBytes : List Nat) : Except Error (List Identity) :=
  match ext.agesshParseIdentity pemBytes with
  | SSHParseOutcome.passphraseMissing optPub =>
    match (match optPub with
           | some pk => Except.ok pk
           | none => readPubFile ext fs name : Except Error Nat) with
    | Except.error e => Except.error e
    | Except.ok pubKey =>
      match ext.newEncryptedSSHIdentity pubKey pemBytes with
      | Except.error e => Except.error e
      | Except.ok i => Except.ok [i]
  | SSHParseOutcome.err e =>
    Except.error ("malformed SSH identity in " ++ goQuote name ++ ": " ++ e)
  | SSHParseOutcome.ok tok => Except.ok [Identity.sshIdentity tok]

/-- The body of `parseIdentitiesFile` once the file bytes are in hand:
peek 14 bytes and dispatch, with `ReadAll(LimitReader(r, limit))`
modelled as taking `limit` bytes of the stream (a stream error is
surfaced only if the limit was not reached first). -/
def identitiesScan (ext : IdExternals) (fs : String → IdFile)
    (name : String) (b : List Nat) : Except Error (List Identity) :=
  let peeked := b.take 14
  if peeked = strBytes "age-encryption" ∨ peeked = strBytes "-----BEGIN AGE" then
    let rp : List Nat × Option Error :=
      if peeked = strBytes "-----BEGIN AGE" then ext.armorStream b else (b, none)
    let readErr := if rp.1.length < 16777216 then rp.2 else none
    match readErr with
    | some e => Except.error ("failed to read " ++ goQuote name ++ ": " ++ e)
    | none =>
      if (rp.1.take 16777216).length = 16777216 then
        Except.error ("failed to read " ++ goQuote name ++ ": file too long")
      else Except.ok [Identity.encryptedIdentity (rp.1.take 16777216) name]
  else if (strBytes "-----BEGIN").isPrefixOf peeked then
    if (b.take 16384).length = 16384 then
      Except.error ("failed to read " ++ goQuote name ++ ": file too long")
    else parseSSHIdentity ext fs name (b.take 16384)
  else
    match ext.ageParseIdentities b with
    | Except.error e => Except.error ("failed to read " ++ goQuote name ++ ": " ++ e)
    | Except.ok ids => Except.ok ids

/-- `parseIdentitiesFile` from `cmd/age/parse.go`. -/
def parseIdentitiesFile (ext : IdExternals) (fs : String → IdFile)
    (stdinBytes : List Nat) (st : ProcState) (name : String) :
    ProcState × Except Error (List Identity) :=
  if name = "-" then
    if st.stdinInUse then (st, Except.error stdinErrMsg)
    else (⟨true⟩, identitiesScan ext fs name stdinBytes)
  else
    match fs name with
    | IdFile.openErr e => (st, Except.error ("failed to open file: " ++ e))
    | IdFile.bytes b => (st, identitiesScan ext fs name b)

/-- One call of the process: `parseRecipientsFile` or
`parseIdentitiesFile`, with the environment it runs against. -/
inductive Call where
  | recips (ext : ExternalParsers) (fs : String → RecFile) (stdin : RecStdin) (name : String)
  | idents (ext : IdExternals) (fs : String → IdFile) (stdin : List Nat) (name : String)

/-- The file name argument of a call. -/
def Call.fileName : Call → String
  | Call.recips _ _ _ n => n
  | Call.idents _ _ _ n => n

/-- The value a call returns. -/
inductive CallResult where
  | recipsR (warns : List String) (res : Except Error (List Recipient))
  | identsR (res : Except Error (List Identity))

/-- The error a call returned, if any. -/
def CallResult.errOf : CallResult → Option Error
  | CallResult.recipsR _ (Except.error e) => some e
  | CallResult.recipsR _ (Except.ok _) => none
  | CallResult.identsR (Except.error e) => some e
  | CallResult.identsR (Except.ok _) => none

/-- Run one call against the process state. -/
def stepCall (st : ProcState) : Call → ProcState × CallResult
  | Call.recips ext fs stdin name =>
    let r := parseRecipientsFile ext fs stdin st name
    (r.1, CallResult.recipsR r.2.1 r.2.2)
  | Call.idents ext fs stdin name =>
    let r := parseIdentitiesFile ext fs stdin st name
    (r.1, CallResult.identsR r.2)

/-- Run a sequence of calls, threading the process state. -/
def runCalls (st : ProcState) : List Call → ProcState × List CallResult
  | [] => (st, [])
  | c :: rest =>
    let s := stepCall st c
    let r := runCalls s.1 rest
    (r.1, s.2 :: r.2)

/-- Once the stdin flag is set, no call clears it. -/
theorem stepCall_flag_mono (st : ProcState) (c : Call) (h : st.stdinInUse = true) :
    ((stepCall st c).1).stdinInUse = true := by
  cases c with
  | recips ext fs stdin name =>
    by_cases hn : name = "-"
    · subst hn
      simp [stepCall, parseRecipientsFile, h]
    · cases hf : fs name with
      | openErr e => simpa [stepCall, parseRecipientsFile, hn, hf] using h
      | content lines scanErr => simpa [stepCall, parseRecipientsFile, hn, hf] using h
  | idents ext fs stdin name =>
    by_cases hn : name = "-"
    · subst hn
      simp [stepCall, parseIdentitiesFile, h]
    · cases hf : fs name with
      | openErr e => simpa [stepCall, parseIdentitiesFile, hn, hf] using h
      | bytes b => simpa [stepCall, parseIdentitiesFile, hn, hf] using h

/-- After any call whose name is `-`, the stdin flag is set. -/
theorem stepCall_dash_flag (st : ProcState) (c : Call) (h : c.fileName = "-") :
    ((stepCall st c).1).stdinInUse = true := by
  cases c with
  | recips ext fs stdin name =>
    simp only [Call.fileName] at h
    subst h
    by_cases hin : st.stdinInUse
    · simp [stepCall, parseRecipientsFile, hin]
    · simp [stepCall, parseRecipientsFile, hin]
  | idents ext fs stdin name =>
    simp only [Call.fileName] at h
    subst h
    by_cases hin : st.stdinInUse
    · simp [stepCall, parseIdentitiesFile, hin]
    · simp [stepCall, parseIdentitiesFile, hin]

/-- With the stdin flag set, a call whose name is `-` returns the
multiple-purposes error without reading stdin. -/
theorem stepCall_dash_err (st : ProcState) (c : Call) (hst : st.stdinInUse = true)
    (h : c.fileName = "-") :
    ((stepCall st c).2).errOf = some stdinErrMsg := by
  cases c with
  | recips ext fs stdin name =>
    simp only [Call.fileName] at h
    subst h
    simp [stepCall, parseRecipientsFile, hst, CallResult.errOf]
  | idents ext fs stdin name =>
    simp only [Call.fileName] at h
    subst h
    simp [stepCall, parseIdentitiesFile, hst, CallResult.errOf]

/-- With the stdin flag set, every later `-` call in a run errors. -/
theorem runCalls_flag_all_dash_err (calls : List Call) :
    ∀ (st : ProcState), st.stdinInUse = true →
      ∀ (j : Nat) (cj : Call), calls[j]? = some cj → cj.fileName = "-" →
        ((runCalls st calls).2[j]?).map CallResult.errOf = some (some stdinErrMsg) := by
  induction calls with
  | nil => intro st _ j cj hj; simp at hj
  | cons c rest ih =>
    intro st hst j cj hj hname
    cases j with
    | zero =>
      simp only [List.getElem?_cons_zero, Option.some.injEq] at hj
      subst hj
      have hres := stepCall_dash_err st c hst hname
      simp [runCalls, hres]
    | succ j' =>
      simp only [List.getElem?_cons_succ] at hj
      simp only [runCalls, List.getElem?_cons_succ]
      exact ih (stepCall st c).1 (stepCall_flag_mono st c hst) j' cj hj hname

/-- C4: in any sequence of `parseRecipientsFile` / `parseIdentitiesFile`
calls, standard input is claimed at most once: every `-` call that
follows an earlier `-` call returns the
`standard input is used for multiple purposes` error instead of reading
stdin. -/
theorem stdin_used_at_most_once (calls : List Call) :
    ∀ (st : ProcState) (i j : Nat) (ci cj : Call), i < j →
      calls[i]? = some ci → calls[j]? = some cj →
      ci.fileName = "-" → cj.fileName = "-" →
      ((runCalls st calls).2[j]?).map CallResult.errOf = some (some stdinErrMsg) := by
  induction calls with
  | nil => intro st i j ci cj _ hi hj _ _; simp at hi
  | cons c rest ih =>
    intro st i j ci cj hij hi hj hni hnj
    cases i with
    | zero =>
      simp only [List.getElem?_cons_zero, Option.some.injEq] at hi
      subst hi
      obtain ⟨j', rfl⟩ : ∃ j', j = j' + 1 := ⟨j - 1, by omega⟩
      simp only [List.getElem?_cons_succ] at hj
      simp only [runCalls, List.getElem?_cons_succ]
      exact runCalls_flag_all_dash_err rest (stepCall st c).1
        (stepCall_dash_flag st c hni) j' cj hj hnj
    | succ i' =>
      obtain ⟨j', rfl⟩ : ∃ j', j = j' + 1 := ⟨j - 1, by omega⟩
      simp only [List.getElem?_cons_succ] at hi hj
      simp only [runCalls, List.getElem?_cons_succ]
      exact ih (stepCall st c).1 i' j' ci cj (by omega) hi hj hni hnj

/-- A trivial set of identity-side externals for concrete runs. -/
def idExtTrivial : IdExternals :=
  { armorStream := fun _ => ([], none)
    ageParseIdentities := fun _ => Except.error "unsupported"
    agesshParseIdentity := fun _ => SSHParseOutcome.err "unsupported"
    newEncryptedSSHIdentity := fun _ _ => Except.error "unsupported"
    sshParseAuthorizedKey := fun _ => Except.error "unsupported" }

/-- A concrete `-` recipients call. -/
def callDashRec : Call := Call.recips extDeny (fun _ => RecFile.openErr "x") ⟨[], none⟩ "-"

/-- A concrete `-` identities call. -/
def callDashId : Call := Call.idents idExtTrivial (fun _ => IdFile.openErr "x") [] "-"

/-- A run making two stdin claims. -/
def twoDashCalls : List Call := [callDashRec, callDashId]

/-- Witness for C4: in a run where both calls name `-`, the second one
returns the multiple-purposes error. -/
theorem stdin_used_at_most_once_witness :
    ((0 : Nat) < 1) ∧ (twoDashCalls[0]? = some callDashRec) ∧
      (twoDashCalls[1]? = some callDashId) ∧
      (callDashRec.fileName = "-") ∧ (callDashId.fileName = "-") ∧
      ((runCalls ⟨false⟩ twoDashCalls).2[1]?).map CallResult.errOf
        = some (some stdinErrMsg) :=
  ⟨Nat.zero_lt_one, rfl, rfl, rfl, rfl,
    stdin_used_at_most_once twoDashCalls ⟨false⟩ 0 1 callDashRec callDashId
      Nat.zero_lt_one rfl rfl rfl rfl⟩

/-! ## Size limits of `parseIdentitiesFile` (C10) -/

/-- C10 amended: with the file's bytes `b` in hand, an unarmored
age-encrypted identity file of `2^24` bytes or more, an armored one
whose armor-decoded stream reaches `2^24` bytes, and another PEM file of
`2^14` bytes or more each yield the `file too long` error instead of
identities parsed from a truncated prefix. -/
theorem parseIdentitiesFile_size_limits
    (ext : IdExternals) (fs : String → IdFile) (stdin : List Nat) (st : ProcState)
    (name : String) (b : List Nat)
    (hname : name ≠ "-") (hf : fs name = IdFile.bytes b) :
    (b.take 14 = strBytes "age-encryption" → 16777216 ≤ b.length →
      (parseIdentitiesFile ext fs stdin st name).2
        = Except.error ("failed to read " ++ goQuote name ++ ": file too long"))
    ∧ (b.take 14 = strBytes "-----BEGIN AGE" → 16777216 ≤ (ext.armorStream b).1.length →
      (parseIdentitiesFile ext fs stdin st name).2
        = Except.error ("failed to read " ++ goQuote name ++ ": file too long"))
    ∧ (b.take 14 ≠ strBytes "age-encryption" → b.take 14 ≠ strBytes "-----BEGIN AGE" →
        (strBytes "-----BEGIN").isPrefixOf (b.take 14) → 16384 ≤ b.length →
      (parseIdentitiesFile ext fs stdin st name).2
        = Except.error ("failed to read " ++ goQuote name ++ ": file too long")) := by
  refine ⟨?_, ?_, ?_⟩
  · intro hp hlen
    have hne2 : strBytes "age-encryption" ≠ strBytes "-----BEGIN AGE" := by decide
    have hlen2 : (List.take 16777216 b).length = 16777216 := by
      rw [List.length_take]; omega
    have hscan : identitiesScan ext fs name b
        = Except.error ("failed to read " ++ goQuote name ++ ": file too long") := by
      simp [identitiesScan, hp, hne2, hlen2]
    simp [parseIdentitiesFile, hname, hf, hscan]
  · intro hp hlen
    have hcond : ¬((ext.armorStream b).1.length < 16777216) := by omega
    have hlen2 : ((ext.armorStream b).1.take 16777216).length = 16777216 := by
      rw [List.length_take]; omega
    have hscan : identitiesScan ext fs name b
        = Except.error ("failed to read " ++ goQuote name ++ ": file too long") := by
      simp [identitiesScan, hp, hcond, hlen2]
    simp [parseIdentitiesFile, hname, hf, hscan]
  · intro hn1 hn2 hpre hlen
    have hne3 : ¬(b.take 14 = strBytes "age-encryption" ∨ b.take 14 = strBytes "-----BEGIN AGE") := by
      rintro (hc | hc)
      · exact hn1 hc
      · exact hn2 hc
    have hlen2 : (List.take 16384 b).length = 16384 := by
      rw [List.length_take]; omega
    have hscan : identitiesScan ext fs name b
        = Except.error ("failed to read " ++ goQuote name ++ ": file too long") := by
      simp [identitiesScan, hne3, hpre, hlen2]
    simp [parseIdentitiesFile, hname, hf, hscan]

/-- An unarmored age-encrypted identity file of more than `2^24` bytes. -/
def longPlainAgeInput : List Nat := strBytes "age-encryption" ++ List.replicate 16777216 0

/-- Its file system. -/
def fsLongPlain : String → IdFile := fun _ => IdFile.bytes longPlainAgeInput

/-- Witness for the amended C10 at a concrete oversized unarmored
input. -/
theorem parseIdentitiesFile_size_limits_witness :
    (("id" : String) ≠ "-") ∧ (fsLongPlain "id" = IdFile.bytes longPlainAgeInput) ∧
      (longPlainAgeInput.take 14 = strBytes "age-encryption") ∧
      (16777216 ≤ longPlainAgeInput.length) ∧
      (parseIdentitiesFile idExtTrivial fsLongPlain [] ⟨false⟩ "id").2
        = Except.error ("failed to read " ++ goQuote "id" ++ ": file too long") := by
  have htake : longPlainAgeInput.take 14 = strBytes "age-encryption" := by
    rw [longPlainAgeInput]
    exact List.take_left' (by decide)
  have hlen : 16777216 ≤ longPlainAgeInput.length := by
    rw [longPlainAgeInput, List.length_append, List.length_replicate]
    omega
  exact ⟨by decide, rfl, htake, hlen,
    (parseIdentitiesFile_size_limits idExtTrivial fsLongPlain [] ⟨false⟩ "id"
      longPlainAgeInput (by decide) rfl).1 htake hlen⟩

/-- Modelled from the spec: the armor begin line of §6 (the armor
package of the repository is not among the given sources). -/
def armorHeaderLine : List Nat := strBytes "-----BEGIN AGE ENCRYPTED FILE-----"

/-- Modelled from the spec: the armor end line of §6. -/
def armorFooterLine : List Nat := strBytes "-----END AGE ENCRYPTED FILE-----"

/-- Modelled from the spec: decoding the armor body, standard padded
base64 in lines of at most 64 columns until the end line (§6); returns
the decoded bytes together with the error, if any, found after them. -/
def armorBodyDecode : List (List Nat) → List Nat → List Nat × Option Error
  | [], acc => (acc, some "armor: missing end line")
  | l :: rest, acc =>
    if l = armorFooterLine then (acc, none)
    else if 64 < l.length then (acc, some "armor: line too long")
    else
      match b64Decode (l.map Char.ofNat) with
      | some bs => armorBodyDecode rest (acc ++ bs)
      | none => (acc, some "armor: invalid base64")

/-- Modelled from the spec: the armor decoder (§6), missing from the
given sources: the input is split into lines, the first line must be the
begin line, and the body decodes until the end line. The result is the
decoded byte stream plus the error, if any, that follows it. -/
def armorStreamSpec (input : List Nat) : List Nat × Option Error :=
  match splitOnSep 10 input with
  | [] => ([], some "armor: invalid first line")
  | first :: rest =>
    if first = armorHeaderLine then armorBodyDecode rest []
    else ([], some "armor: invalid first line")

/-- Splitting a list without the separator yields the list itself. -/
theorem splitOnSep_no_sep {α : Type} [DecidableEq α] (sep : α) (l : List α)
    (h : ∀ a ∈ l, a ≠ sep) : splitOnSep sep l = [l] := by
  induction l with
  | nil => rfl
  | cons c rest ih =>
    have hc : c ≠ sep := h c (List.mem_cons_self c rest)
    have hr := ih (fun a ha => h a (List.mem_cons_of_mem c ha))
    simp only [splitOnSep, hr, if_neg hc]

/-- An armored-looking input of more than `2^24` bytes that the armor
decoder rejects at its first line. -/
def longArmoredInput : List Nat := strBytes "-----BEGIN AGE" ++ List.replicate 16777216 32

/-- No byte of `longArmoredInput` is a newline. -/
theorem longArmoredInput_no_newline : ∀ a ∈ longArmoredInput, a ≠ 10 := by
  intro a ha h10
  subst h10
  rw [longArmoredInput, List.mem_append] at ha
  rcases ha with ha | ha
  · exact absurd ha (by decide)
  · exact absurd (List.eq_of_mem_replicate ha) (by decide)

/-- The armor decoder rejects any newline-free input other than the
begin line itself. -/
theorem armorStreamSpec_reject (l : List Nat) (hns : ∀ a ∈ l, a ≠ 10)
    (hne : l ≠ armorHeaderLine) :
    armorStreamSpec l = ([], some "armor: invalid first line") := by
  have hs := splitOnSep_no_sep 10 l hns
  simp only [armorStreamSpec, hs, if_neg hne]

/-- `longArmoredInput` is not the armor begin line. -/
theorem longArmoredInput_ne_header : longArmoredInput ≠ armorHeaderLine := by
  intro h
  have hl := congrArg List.length h
  rw [longArmoredInput, List.length_append, List.length_replicate] at hl
  have h1 : (strBytes "-----BEGIN AGE").length = 14 := by decide
  have h2 : armorHeaderLine.length = 34 := by decide
  omega

/-- The armor decoder rejects `longArmoredInput` before producing any
byte. -/
theorem armorStreamSpec_longArmoredInput :
    armorStreamSpec longArmoredInput = ([], some "armor: invalid first line") :=
  armorStreamSpec_reject longArmoredInput longArmoredInput_no_newline
    longArmoredInput_ne_header

/-- The identity-side externals with the spec-modelled armor decoder. -/
def idExtArmor : IdExternals :=
  { armorStream := armorStreamSpec
    ageParseIdentities := fun _ => Except.error "unsupported"
    agesshParseIdentity := fun _ => SSHParseOutcome.err "unsupported"
    newEncryptedSSHIdentity := fun _ _ => Except.error "unsupported"
    sshParseAuthorizedKey := fun _ => Except.error "unsupported" }

/-- The file system holding `longArmoredInput`. -/
def fsLongArmored : String → IdFile := fun _ => IdFile.bytes longArmoredInput

/-- Counterexample for C10: an input beginning with `-----BEGIN AGE` of
`2^24` bytes or more (hence also one beginning with `-----BEGIN` of
`2^14` bytes or more) does not yield the `file too long` error — here it
yields an armor error instead, because the `2^24` limit applies to the
armor-decoded stream rather than to the input. -/
theorem parseIdentitiesFile_size_limits_counterexample :
    (16777216 ≤ longArmoredInput.length) ∧
      (longArmoredInput.take 14 = strBytes "-----BEGIN AGE") ∧
      ((strBytes "-----BEGIN").isPrefixOf (longArmoredInput.take 14)) ∧
      (parseIdentitiesFile idExtArmor fsLongArmored [] ⟨false⟩ "id").2
        = Except.error ("failed to read " ++ goQuote "id" ++ ": " ++ "armor: invalid first line") ∧
      Except.error (α := List Identity)
          ("failed to read " ++ goQuote "id" ++ ": " ++ "armor: invalid first line")
        ≠ Except.error ("failed to read " ++ goQuote "id" ++ ": file too long") := by
  have htake : longArmoredInput.take 14 = strBytes "-----BEGIN AGE" := by
    rw [longArmoredInput]
    exact List.take_left' (by decide)
  have hlen : 16777216 ≤ longArmoredInput.length := by
    rw [longArmoredInput, List.length_append, List.length_replicate]
    omega
  have hscan : identitiesScan idExtArmor fsLongArmored "id" longArmoredInput
      = Except.error ("failed to read " ++ goQuote "id" ++ ": " ++ "armor: invalid first line") := by
    simp [identitiesScan, htake, idExtArmor, armorStreamSpec_longArmoredInput]
  refine ⟨hlen, htake, by rw [htake]; decide, ?_, by decide⟩
  have hname : ("id" : String) ≠ "-" := by decide
  simp [parseIdentitiesFile, hname, fsLongArmored, hscan]

/-! ## The spec-modelled core: encrypt / decrypt / STREAM

The cryptographic core of the repository (the `age` package with the
encrypt/decrypt orchestrator, the X25519 and scrypt stanzas, and the
STREAM payload transform) is not among the given sources; the following
definitions are modelled from the specification (§3–§4.6). The
primitives are modelled as ideal, injective operations: a sealed value
is opened exactly by the matching key material, which is what the
functional claims (round-trip, exclusivity, chunk counts) are about. -/

namespace AgeCore

/-- Byte strings of the core model. -/
abbrev Bytes := List Nat

/-- Modelled from the spec (§3, §4.3–§4.4, missing from the given
sources): a recipient is an X25519 public key or an scrypt passphrase
with a work factor; the key pair of an X25519 recipient is modelled by a
shared token. -/
inductive Recip where
  | x25519 (pub : Nat)
  | scrypt (passphrase : Bytes) (workFactor : Nat)
deriving DecidableEq, Repr

/-- Modelled from the spec (§3, missing from the given sources): an
identity holds the secret matching an X25519 recipient's public token,
or a passphrase. -/
inductive Ident where
  | x25519 (pub : Nat)
  | scrypt (passphrase : Bytes)
deriving DecidableEq, Repr

/-- Modelled from the spec (§3, §4.1, missing from the given sources): a
header stanza; the body is the wrapped file key, modelled as an ideal
encapsulation opened exactly by the matching secret. -/
inductive Stanza where
  | x25519 (pub : Nat) (body : Bytes)
  | scrypt (passphrase : Bytes) (workFactor : Nat) (body : Bytes)
deriving DecidableEq, Repr

/-- Whether a stanza has type `scrypt`. -/
def Stanza.isScrypt : Stanza → Bool
  | Stanza.scrypt _ _ _ => true
  | _ => false

/-- Whether a recipient is a passphrase recipient. -/
def Recip.isScrypt : Recip → Bool
  | Recip.scrypt _ _ => true
  | _ => false

/-- Modelled from the spec (§4.3–§4.4 wrap): each recipient wraps the
file key into one stanza. -/
def wrap (fk : Bytes) : Recip → Stanza
  | Recip.x25519 p => Stanza.x25519 p fk
  | Recip.scrypt pw wf => Stanza.scrypt pw wf fk

/-- Modelled from the spec (§4.3–§4.4 unwrap): the matching secret
recovers the file key; an scrypt work factor outside `[1, 22]` is
rejected at decrypt time. Both "not mine" and a concrete failure make
the orchestrator move to the next candidate (§4.6 step 3), so both are
`none` here. -/
def unwrap : Ident → Stanza → Option Bytes
  | Ident.x25519 pub, Stanza.x25519 p body => if pub = p then some body else none
  | Ident.scrypt pw, Stanza.scrypt pw' wf body =>
    if pw = pw' then (if 1 ≤ wf ∧ wf ≤ 22 then some body else none) else none
  | _, _ => none

/-- An identity matches a recipient when it holds the corresponding
secret: the same X25519 key pair or the same passphrase. -/
def idMatches : Ident → Recip → Bool
  | Ident.x25519 pub, Recip.x25519 p => pub = p
  | Ident.scrypt pw, Recip.scrypt pw' _ => pw = pw'
  | _, _ => false

/-- Whether a recipient's scrypt work factor is within the decrypt-side
bound of §4.4 (vacuously true for X25519 recipients). -/
def scryptWfOK : Recip → Bool
  | Recip.scrypt _ wf => decide (1 ≤ wf ∧ wf ≤ 22)
  | _ => true

/-- Modelled from the spec (§4.2): the header MAC, symbolically
determined by the file key and the exact header it covers. -/
structure Mac where
  fk : Bytes
  stanzas : List Stanza
deriving DecidableEq, Repr

/-- Computing the header MAC. -/
def headerMac (fk : Bytes) (stanzas : List Stanza) : Mac := ⟨fk, stanzas⟩

/-- Modelled from the spec (§4.5): the payload key
`HKDF(fk, stream nonce, "payload")`, symbolically the pair of its
inputs. -/
structure PayloadKey where
  fk : Bytes
  nonce : Bytes
deriving DecidableEq, Repr

/-- Modelled from the spec (§4.5, missing from the given sources): one
STREAM frame, a chunk sealed under the payload key with the per-chunk
nonce (counter and last-chunk flag). -/
inductive Frame where
  | seal (k : PayloadKey) (ctr : Nat) (last : Bool) (chunk : Bytes)
deriving DecidableEq, Repr

/-- The last-chunk flag of a frame's nonce. -/
def frameLast : Frame → Bool
  | Frame.seal _ _ l _ => l

/-- Opening one frame with the expected key, counter and flag. -/
def frameOpen (k : PayloadKey) (ctr : Nat) (last : Bool) : Frame → Option Bytes
  | Frame.seal k' c' l' m => if k' = k ∧ c' = ctr ∧ l' = last then some m else none

/-- Modelled from the spec (§4.5): partition into 64 KiB chunks, the
final one possibly shorter. -/
def chunks64k (l : Bytes) : List Bytes :=
  if h : l = [] then [] else l.take 65536 :: chunks64k (l.drop 65536)
termination_by l.length
decreasing_by
  simp only [List.length_drop]
  have hpos : 0 < l.length := List.length_pos.mpr h
  omega

/-- Modelled from the spec (§4.5): the chunk sequence of a plaintext; an
empty plaintext still yields a single empty chunk. -/
def streamChunks (p : Bytes) : List Bytes :=
  if p = [] then [[]] else chunks64k p

/-- Mark the final chunk with the last-chunk flag. -/
def markLast : List Bytes → List (Bytes × Bool)
  | [] => []
  | [c] => [(c, true)]
  | c :: c' :: rest => (c, false) :: markLast (c' :: rest)

/-- Seal the marked chunks with consecutive counters. -/
def sealChunks (k : PayloadKey) : Nat → List (Bytes × Bool) → List Frame
  | _, [] => []
  | ctr, (c, fl) :: rest => Frame.seal k ctr fl c :: sealChunks k (ctr + 1) rest

/-- The frames STREAM encryption emits for a plaintext. -/
def streamFrames (k : PayloadKey) (P : Bytes) : List Frame :=
  sealChunks k 0 (markLast (streamChunks P))

/-- Modelled from the spec (§4.5 decrypt): open the frames in order; a
frame is expected to carry the last-chunk flag exactly when it is the
final frame received, an empty stream (or a stream whose last frame
lacks the flag) is a truncation error, and any failed open aborts. -/
def openFrames (k : PayloadKey) : Nat → List Frame → Except Error Bytes
  | _, [] => Except.error "truncated stream: missing final chunk"
  | ctr, f :: rest =>
    match frameOpen k ctr rest.isEmpty f with
    | none => Except.error "failed to decrypt and authenticate payload chunk"
    | some m =>
      if rest.isEmpty then Except.ok m
      else
        match openFrames k (ctr + 1) rest with
        | Except.ok tl => Except.ok (m ++ tl)
        | Except.error e => Except.error e

/-- Modelled from the spec (§6, missing from the given sources): an age
file — header stanzas, header MAC, STREAM nonce and payload frames. -/
structure AgeFile where
  stanzas : List Stanza
  mac : Mac
  streamNonce : Bytes
  frames : List Frame
deriving DecidableEq, Repr

/-- Modelled from the spec (§4.6 encrypt, missing from the given
sources): validate the recipient set (non-empty; an scrypt recipient
must be alone), wrap the file key for each recipient in order, compute
the header MAC and run STREAM. The sampled file key and stream nonce
are explicit arguments. -/
def encrypt (P : Bytes) (R : List Recip) (fk : Bytes) (streamNonce : Bytes) :
    Except Error AgeFile :=
  if R.isEmpty then Except.error "no recipients specified"
  else if R.any Recip.isScrypt ∧ R.length ≠ 1 then
    Except.error "an scrypt recipient must be the only one"
  else
    Except.ok
      { stanzas := R.map (wrap fk)
        mac := headerMac fk (R.map (wrap fk))
        streamNonce := streamNonce
        frames := streamFrames ⟨fk, streamNonce⟩ P }

/-- Modelled from the spec (§4.6 decrypt step 3): for each stanza in
order, try each identity; the first successful unwrap yields the file
key. -/
def tryUnwrap (I : List Ident) : List Stanza → Option Bytes
  | [] => none
  | s :: rest =>
    match I.findSome? (fun i => unwrap i s) with
    | some fk => some fk
    | none => tryUnwrap I rest

/-- Modelled from the spec (§4.6 decrypt, missing from the given
sources): reject an scrypt stanza with siblings before any unwrap, find
a file key by trial unwrap, verify the header MAC, then run STREAM. -/
def decrypt (I : List Ident) (f : AgeFile) : Except Error Bytes :=
  if f.stanzas.any Stanza.isScrypt ∧ f.stanzas.length ≠ 1 then
    Except.error "an scrypt recipient must be the only one"
  else
    match tryUnwrap I f.stanzas with
    | none => Except.error "no identity matched any of the recipients"
    | some fk =>
      if headerMac fk f.stanzas = f.mac then
        openFrames ⟨fk, f.streamNonce⟩ 0 f.frames
      else Except.error "bad header MAC"

end AgeCore

namespace AgeCore

/-- Chunking yields `⌈L/65536⌉` chunks. -/
theorem chunks64k_length_le : ∀ (n : Nat) (l : Bytes), l.length ≤ n →
    (chunks64k l).length = (l.length + 65535) / 65536 := by
  intro n
  induction n with
  | zero =>
    intro l hl
    have h0 : l = [] := by
      cases l with
      | nil => rfl
      | cons a as => simp at hl
    subst h0
    simp [chunks64k]
  | succ n ih =>
    intro l hl
    by_cases h : l = []
    · subst h
      simp [chunks64k]
    · rw [chunks64k, dif_neg h]
      have hdrop : (l.drop 65536).length = l.length - 65536 := List.length_drop 65536 l
      have ih' := ih (l.drop 65536) (by rw [hdrop]; omega)
      rw [List.length_cons, ih', hdrop]
      have hpos : 0 < l.length := List.length_pos.mpr h
      rcases le_or_lt l.length 65536 with hle | hlt
      · have e1 : l.length - 65536 = 0 := by omega
        rw [e1]
        have e2 : (l.length + 65535) / 65536 = 1 :=
          Nat.div_eq_of_lt_le (by omega) (by omega)
        rw [e2]
      · have e : l.length + 65535 = (l.length - 65536 + 65535) + 65536 := by omega
        rw [e, Nat.add_div_right _ (by omega)]

/-- Chunking then flattening is the identity. -/
theorem chunks64k_flatten_le : ∀ (n : Nat) (l : Bytes), l.length ≤ n →
    (chunks64k l).flatten = l := by
  intro n
  induction n with
  | zero =>
    intro l hl
    have h0 : l = [] := by
      cases l with
      | nil => rfl
      | cons a as => simp at hl
    subst h0
    simp [chunks64k]
  | succ n ih =>
    intro l hl
    by_cases h : l = []
    · subst h
      simp [chunks64k]
    · rw [chunks64k, dif_neg h]
      have hdrop : (l.drop 65536).length = l.length - 65536 := List.length_drop 65536 l
      have hpos : 0 < l.length := List.length_pos.mpr h
      have ih' := ih (l.drop 65536) (by rw [hdrop]; omega)
      rw [List.flatten_cons, ih', List.take_append_drop]

/-- The chunk sequence of a plaintext is never empty. -/
theorem streamChunks_ne_nil (P : Bytes) : streamChunks P ≠ [] := by
  unfold streamChunks
  by_cases h : P = []
  · simp [h]
  · rw [if_neg h, chunks64k, dif_neg h]
    simp

/-- Flattening the chunk sequence recovers the plaintext. -/
theorem streamChunks_flatten (P : Bytes) : (streamChunks P).flatten = P := by
  unfold streamChunks
  by_cases h : P = []
  · simp [h]
  · rw [if_neg h]
    exact chunks64k_flatten_le P.length P (Nat.le_refl _)

/-- `markLast` preserves the number of chunks. -/
theorem markLast_length : ∀ cs : List Bytes, (markLast cs).length = cs.length
  | [] => rfl
  | [_] => rfl
  | c :: c' :: rest => by
    simp only [markLast, List.length_cons, markLast_length (c' :: rest)]

/-- `sealChunks` preserves the number of chunks. -/
theorem sealChunks_length (k : PayloadKey) :
    ∀ (ms : List (Bytes × Bool)) (ctr : Nat), (sealChunks k ctr ms).length = ms.length
  | [], _ => rfl
  | (c, fl) :: rest, ctr => by
    simp only [sealChunks, List.length_cons, sealChunks_length k rest (ctr + 1)]

/-- The flags `markLast` assigns: `false` everywhere except the final
chunk. -/
theorem markLast_map_snd : ∀ cs : List Bytes, cs ≠ [] →
    (markLast cs).map Prod.snd = List.replicate (cs.length - 1) false ++ [true]
  | [], h => absurd rfl h
  | [_], _ => rfl
  | c :: c' :: rest, _ => by
    have ih := markLast_map_snd (c' :: rest) (by simp)
    simp only [markLast, List.map_cons, ih, List.length_cons]
    rw [show rest.length + 1 + 1 - 1 = (rest.length + 1 - 1) + 1 from by omega,
      List.replicate_succ, List.cons_append]

/-- Sealing preserves the flags. -/
theorem sealChunks_map_frameLast (k : PayloadKey) :
    ∀ (ms : List (Bytes × Bool)) (ctr : Nat),
      (sealChunks k ctr ms).map frameLast = ms.map Prod.snd
  | [], _ => rfl
  | (c, fl) :: rest, ctr => by
    simp only [sealChunks, List.map_cons, frameLast,
      sealChunks_map_frameLast k rest (ctr + 1)]

/-- C3: STREAM encryption emits exactly `⌈L/65536⌉` frames for a
non-empty plaintext of length `L` and one empty flagged frame for the
empty plaintext, with the last-chunk flag set on the final frame only. -/
theorem streamFrames_spec (k : PayloadKey) (P : Bytes) :
    (P ≠ [] → (streamFrames k P).length = (P.length + 65535) / 65536)
    ∧ (P = [] → streamFrames k P = [Frame.seal k 0 true []])
    ∧ (streamFrames k P).map frameLast
        = List.replicate ((streamFrames k P).length - 1) false ++ [true] := by
  refine ⟨?_, ?_, ?_⟩
  · intro h
    rw [streamFrames, sealChunks_length, markLast_length, streamChunks, if_neg h]
    exact chunks64k_length_le P.length P (Nat.le_refl _)
  · intro h
    subst h
    rfl
  · rw [streamFrames, sealChunks_map_frameLast,
      markLast_map_snd (streamChunks P) (streamChunks_ne_nil P),
      sealChunks_length, markLast_length]

/-- Witness for C3 at a two-byte plaintext (one frame) and at the empty
plaintext (one empty flagged frame). -/
theorem streamFrames_spec_witness :
    (([7, 8] : Bytes) ≠ []) ∧
      (streamFrames ⟨[1], [2]⟩ [7, 8]).length = ((2 : Nat) + 65535) / 65536 ∧
      streamFrames ⟨[1], [2]⟩ [] = [Frame.seal ⟨[1], [2]⟩ 0 true []] :=
  ⟨by decide, (streamFrames_spec ⟨[1], [2]⟩ [7, 8]).1 (by decide),
    (streamFrames_spec ⟨[1], [2]⟩ []).2.1 rfl⟩

/-- C2: scrypt exclusivity. Encrypting to a recipient set that mixes an
scrypt recipient with any other recipient fails; decrypting a header
holding an scrypt stanza with any sibling fails, identically for every
identity set — in particular as for the empty one, so before any unwrap
is attempted. -/
theorem scrypt_exclusive (P fk nonce : Bytes) (R : List Recip) (I : List Ident)
    (f : AgeFile)
    (hR : R.any Recip.isScrypt = true) (hlen : R.length ≠ 1)
    (hs : f.stanzas.any Stanza.isScrypt = true) (hslen : f.stanzas.length ≠ 1) :
    encrypt P R fk nonce = Except.error "an scrypt recipient must be the only one"
    ∧ decrypt I f = Except.error "an scrypt recipient must be the only one"
    ∧ decrypt I f = decrypt [] f := by
  refine ⟨?_, ?_, ?_⟩
  · cases R with
    | nil => simp at hR
    | cons r rs =>
      simp only [encrypt, List.isEmpty_cons, if_neg (by simp : ¬false = true)]
      rw [if_pos ⟨hR, hlen⟩]
  · simp only [decrypt]
    rw [if_pos ⟨hs, hslen⟩]
  · simp only [decrypt]
    rw [if_pos ⟨hs, hslen⟩, if_pos ⟨hs, hslen⟩]

/-- A header mixing an scrypt stanza with an X25519 stanza. -/
def mixedFile : AgeFile :=
  { stanzas := [Stanza.scrypt [1] 15 [0], Stanza.x25519 2 [0]]
    mac := ⟨[0], [Stanza.scrypt [1] 15 [0], Stanza.x25519 2 [0]]⟩
    streamNonce := []
    frames := [] }

/-- Witness for C2 at a concrete mixed recipient set and a concrete
mixed header. -/
theorem scrypt_exclusive_witness :
    ([Recip.scrypt [1] 15, Recip.x25519 2].any Recip.isScrypt = true) ∧
      ([Recip.scrypt [1] 15, Recip.x25519 2].length ≠ 1) ∧
      (mixedFile.stanzas.any Stanza.isScrypt = true) ∧
      (mixedFile.stanzas.length ≠ 1) ∧
      encrypt [9] [Recip.scrypt [1] 15, Recip.x25519 2] [0] []
        = Except.error "an scrypt recipient must be the only one" ∧
      decrypt [Ident.x25519 2] mixedFile
        = Except.error "an scrypt recipient must be the only one" :=
  ⟨by decide, by decide, by decide, by decide,
    (scrypt_exclusive [9] [0] [] [Recip.scrypt [1] 15, Recip.x25519 2]
      [Ident.x25519 2] mixedFile (by decide) (by decide) (by decide) (by decide)).1,
    (scrypt_exclusive [9] [0] [] [Recip.scrypt [1] 15, Recip.x25519 2]
      [Ident.x25519 2] mixedFile (by decide) (by decide) (by decide) (by decide)).2.1⟩

end AgeCore

namespace AgeCore

/-- Opening the sealed, marked chunks recovers their concatenation. -/
theorem openFrames_sealChunks (k : PayloadKey) :
    ∀ (cs : List Bytes) (ctr : Nat), cs ≠ [] →
      openFrames k ctr (sealChunks k ctr (markLast cs)) = Except.ok cs.flatten
  | [], _, h => absurd rfl h
  | [c], ctr, _ => by
    simp [markLast, sealChunks, openFrames, frameOpen]
  | c :: c' :: rest, ctr, _ => by
    have ih := openFrames_sealChunks k (c' :: rest) (ctr + 1) (by simp)
    have hlen : (sealChunks k (ctr + 1) (markLast (c' :: rest))).length
        = (c' :: rest).length := by
      rw [sealChunks_length, markLast_length]
    have hnil : sealChunks k (ctr + 1) (markLast (c' :: rest)) ≠ [] := by
      intro hn
      rw [hn] at hlen
      simp at hlen
    have hne : (sealChunks k (ctr + 1) (markLast (c' :: rest))).isEmpty = false := by
      rw [Bool.eq_false_iff]
      intro hT
      exact hnil (List.isEmpty_iff.mp hT)
    simp [markLast, sealChunks, openFrames, hne, frameOpen, ih]

/-- Every unwrap of a stanza wrapping `fk` yields `fk` or nothing. -/
theorem unwrap_wrap_cases (fk : Bytes) (i : Ident) (r : Recip) :
    unwrap i (wrap fk r) = none ∨ unwrap i (wrap fk r) = some fk := by
  cases i with
  | x25519 pub =>
    cases r with
    | x25519 p =>
      by_cases h : pub = p
      · right; simp [unwrap, wrap, h]
      · left; simp [unwrap, wrap, h]
    | scrypt pw wf => left; rfl
  | scrypt pw =>
    cases r with
    | x25519 p => left; rfl
    | scrypt pw' wf =>
      by_cases h : pw = pw'
      · by_cases hw : 1 ≤ wf ∧ wf ≤ 22
        · right; simp [unwrap, wrap, h, hw]
        · left; simp [unwrap, wrap, h, hw]
      · left; simp [unwrap, wrap, h]

/-- A matching identity unwraps a stanza wrapping `fk` to `fk`, provided
the recipient's work factor is within the decrypt-side bound. -/
theorem unwrap_wrap_of_matches (fk : Bytes) (i : Ident) (r : Recip)
    (hm : idMatches i r = true) (hwf : scryptWfOK r = true) :
    unwrap i (wrap fk r) = some fk := by
  cases i with
  | x25519 pub =>
    cases r with
    | x25519 p =>
      simp only [idMatches, decide_eq_true_eq] at hm
      simp [unwrap, wrap, hm]
    | scrypt pw wf => simp [idMatches] at hm
  | scrypt pw =>
    cases r with
    | x25519 p => simp [idMatches] at hm
    | scrypt pw' wf =>
      simp only [idMatches, decide_eq_true_eq] at hm
      simp only [scryptWfOK, decide_eq_true_eq] at hwf
      simp [unwrap, wrap, hm, hwf]

/-- If every identity unwraps a stanza to `fk` or fails, and some
identity in the list succeeds, the first success is `fk`. -/
theorem findSome?_unwrap_eq (s : Stanza) (fk : Bytes) (I : List Ident)
    (hall : ∀ i : Ident, unwrap i s = none ∨ unwrap i s = some fk)
    (hex : ∃ i ∈ I, unwrap i s = some fk) :
    I.findSome? (fun i => unwrap i s) = some fk := by
  induction I with
  | nil => simp at hex
  | cons i0 I ih =>
    rw [List.findSome?_cons]
    cases h0 : unwrap i0 s with
    | some v =>
      rcases hall i0 with hc | hc
      · rw [h0] at hc; simp at hc
      · rw [h0] at hc
        injection hc with hv
        rw [hv]
    | none =>
      apply ih
      rcases hex with ⟨i, hi, hu⟩
      rcases List.mem_cons.mp hi with rfl | hi'
      · rw [h0] at hu; simp at hu
      · exact ⟨i, hi', hu⟩

/-- Trial unwrap over stanzas all wrapping the same `fk` succeeds with
`fk` when some identity matches some stanza. -/
theorem tryUnwrap_map_wrap (fk : Bytes) (I : List Ident) :
    ∀ R : List Recip,
      (∃ r ∈ R, ∃ i ∈ I, unwrap i (wrap fk r) = some fk) →
      tryUnwrap I (R.map (wrap fk)) = some fk
  | [], hex => by simp at hex
  | r0 :: R, hex => by
    simp only [List.map_cons, tryUnwrap]
    cases hfs : I.findSome? (fun i => unwrap i (wrap fk r0)) with
    | some v =>
      obtain ⟨i, hi, hu⟩ := List.exists_of_findSome?_eq_some hfs
      rcases unwrap_wrap_cases fk i r0 with hc | hc
      · rw [hu] at hc; simp at hc
      · rw [hu] at hc
        injection hc with hv
        rw [hv]
    | none =>
      apply tryUnwrap_map_wrap fk I R
      rcases hex with ⟨r, hr, i, hi, hu⟩
      rcases List.mem_cons.mp hr with rfl | hr'
      · have hn : unwrap i (wrap fk r) = none := List.findSome?_eq_none_iff.mp hfs i hi
        rw [hn] at hu
        simp at hu
      · exact ⟨r, hr', i, hi, hu⟩

/-- Wrapping preserves being an scrypt stanza. -/
theorem any_map_wrap_isScrypt (fk : Bytes) (R : List Recip) :
    (R.map (wrap fk)).any Stanza.isScrypt = R.any Recip.isScrypt := by
  induction R with
  | nil => rfl
  | cons r R ih =>
    simp only [List.map_cons, List.any_cons, ih]
    congr 1
    cases r <;> rfl

/-- C1 amended: decrypting the output of a successful `encrypt` with an
identity set containing a match for some recipient recovers the
plaintext, provided every scrypt recipient's work factor is within the
decrypt-side bound `[1, 22]`. -/
theorem encrypt_decrypt_roundtrip (P : Bytes) (R : List Recip) (I : List Ident)
    (fk nonce : Bytes) (f : AgeFile)
    (henc : encrypt P R fk nonce = Except.ok f)
    (hwf : ∀ r ∈ R, scryptWfOK r = true)
    (hmatch : ∃ i ∈ I, ∃ r ∈ R, idMatches i r = true) :
    decrypt I f = Except.ok P := by
  unfold encrypt at henc
  by_cases h1 : R.isEmpty = true
  · rw [if_pos h1] at henc
    exact absurd henc (by simp)
  · rw [if_neg h1] at henc
    by_cases h2 : R.any Recip.isScrypt ∧ R.length ≠ 1
    · rw [if_pos h2] at henc
      exact absurd henc (by simp)
    · rw [if_neg h2] at henc
      injection henc with hf
      subst hf
      unfold decrypt
      have hchk : ¬((R.map (wrap fk)).any Stanza.isScrypt = true
          ∧ (R.map (wrap fk)).length ≠ 1) := by
        rw [any_map_wrap_isScrypt, List.length_map]
        exact h2
      rw [if_neg hchk]
      have htry : tryUnwrap I (R.map (wrap fk)) = some fk := by
        apply tryUnwrap_map_wrap
        rcases hmatch with ⟨i, hi, r, hr, hm⟩
        exact ⟨r, hr, i, hi, unwrap_wrap_of_matches fk i r hm (hwf r hr)⟩
      simp only [htry, if_true]
      have hopen := openFrames_sealChunks ⟨fk, nonce⟩ (streamChunks P) 0
        (streamChunks_ne_nil P)
      rw [streamChunks_flatten] at hopen
      exact hopen

/-- Chunking an empty byte string. -/
theorem chunks64k_nil : chunks64k [] = [] := by
  rw [chunks64k]
  simp

/-- A non-empty plaintext of at most one chunk yields that single
chunk. -/
theorem chunks64k_small (l : Bytes) (h : l ≠ []) (hlen : l.length ≤ 65536) :
    chunks64k l = [l] := by
  rw [chunks64k, dif_neg h, List.take_of_length_le hlen,
    List.drop_eq_nil_of_le hlen, chunks64k_nil]

/-- A non-empty plaintext of at most one chunk is sealed into a single
flagged frame. -/
theorem streamFrames_single (k : PayloadKey) (P : Bytes) (h : P ≠ [])
    (hlen : P.length ≤ 65536) :
    streamFrames k P = [Frame.seal k 0 true P] := by
  rw [streamFrames, streamChunks, if_neg h, chunks64k_small P h hlen]
  rfl

/-- Counterexample for C1 as stated: an scrypt recipient with work
factor 30 is accepted by `encrypt`, and the identity with the correct
passphrase matches it, yet `decrypt` fails (§4.4 rejects work factors
above 22 at decrypt time). -/
theorem encrypt_decrypt_roundtrip_counterexample :
    (encrypt [7] [Recip.scrypt [1] 30] [9] [5]
      = Except.ok
          { stanzas := [Stanza.scrypt [1] 30 [9]]
            mac := ⟨[9], [Stanza.scrypt [1] 30 [9]]⟩
            streamNonce := [5]
            frames := [Frame.seal ⟨[9], [5]⟩ 0 true [7]] }) ∧
      (∃ i ∈ [Ident.scrypt [1]], ∃ r ∈ [Recip.scrypt [1] 30], idMatches i r = true) ∧
      decrypt [Ident.scrypt [1]]
          { stanzas := [Stanza.scrypt [1] 30 [9]]
            mac := ⟨[9], [Stanza.scrypt [1] 30 [9]]⟩
            streamNonce := [5]
            frames := [Frame.seal ⟨[9], [5]⟩ 0 true [7]] }
        ≠ Except.ok [7] := by
  have hsf := streamFrames_single (⟨[9], [5]⟩ : PayloadKey) [7] (by decide) (by decide)
  refine ⟨?_, by decide, by decide⟩
  simp [encrypt, headerMac, wrap, Recip.isScrypt, hsf]

/-- The file produced by encrypting `[1, 2, 3]` to the X25519 recipient
with token 5 under file key `[9]` and stream nonce `[4]`. -/
def cw1File : AgeFile :=
  { stanzas := [Stanza.x25519 5 [9]]
    mac := ⟨[9], [Stanza.x25519 5 [9]]⟩
    streamNonce := [4]
    frames := [Frame.seal ⟨[9], [4]⟩ 0 true [1, 2, 3]] }

/-- Witness for the amended C1 at a concrete X25519 encryption. -/
theorem encrypt_decrypt_roundtrip_witness :
    (encrypt [1, 2, 3] [Recip.x25519 5] [9] [4] = Except.ok cw1File) ∧
      (∀ r ∈ [Recip.x25519 5], scryptWfOK r = true) ∧
      (∃ i ∈ [Ident.x25519 5], ∃ r ∈ [Recip.x25519 5], idMatches i r = true) ∧
      decrypt [Ident.x25519 5] cw1File = Except.ok [1, 2, 3] :=
  ⟨by
      have hsf := streamFrames_single (⟨[9], [4]⟩ : PayloadKey) [1, 2, 3]
        (by decide) (by decide)
      simp [encrypt, headerMac, wrap, Recip.isScrypt, hsf, cw1File],
    by decide, by decide,
    encrypt_decrypt_roundtrip [1, 2, 3] [Recip.x25519 5] [Ident.x25519 5] [9] [4]
      cw1File
      (by
        have hsf := streamFrames_single (⟨[9], [4]⟩ : PayloadKey) [1, 2, 3]
          (by decide) (by decide)
        simp [encrypt, headerMac, wrap, Recip.isScrypt, hsf, cw1File])
      (by decide) (by decide)⟩

end AgeCore
